import Mathlib

/-!
Verification of the contests.nvim plugin core, from
rplugin/python3/contests.py. A Python string is modelled as List Char, a
buffer as its list of lines (List (List Char)), and child-process execution
as an oracle mapping a command line and stdin text to raw stdout, raw
stderr and an exit code. Strategies at the test-runner level are modelled
directly as functions from stdin text to merged output and exit code.
-/

/-- Delimiter line separating test cases in the input buffer
(contests.py line 164). -/
def SPLITTER : List Char := "→ ###".toList

/-- Splitting a list at every element equal to sep, as Python str.split
does: a trailing separator yields a trailing empty piece and an input with
no separator yields one piece holding the whole input. Models both
text.split on a newline (contests.py line 160) and the decomposition of
the input buffer into delimiter blocks. -/
def splitSep {α : Type} [DecidableEq α] (sep : α) : List α → List (List α)
  | [] => [[]]
  | x :: xs =>
    if x = sep then [] :: splitSep sep xs
    else
      match splitSep sep xs with
      | [] => [[x]]
      | p :: ps => (x :: p) :: ps

/-- The lines of one delimiter block joined back into stdin text: every
line followed by a newline, as the accumulation of contests.py line 183
produces. -/
def joinNl (block : List (List Char)) : List Char :=
  block.foldr (fun line acc => line ++ '\n' :: acc) []

/-- Merging of captured stdout and stderr performed by Launcher.launch
(contests.py lines 20 to 26): stderr alone when stdout is empty, stdout
alone when stderr is empty, otherwise stdout, a newline when its final
character is not one, then stderr. -/
def launchMerge (stdout stderr : List Char) : List Char :=
  if stdout = [] then stderr
  else if stderr = [] then stdout
  else if stdout.getLast? ≠ some '\n' then (stdout ++ ['\n']) ++ stderr
  else stdout ++ stderr

/-- Restatement of the merge rule as the spec words it, for comparison
with launchMerge: the other stream verbatim when one is empty, otherwise
stdout with exactly one newline appended iff stdout does not already end
in a newline, followed by stderr. -/
def specMergedOutput (stdout stderr : List Char) : List Char :=
  if stdout = [] then stderr
  else if stderr = [] then stdout
  else
    (if List.isSuffixOf ['\n'] stdout then stdout else stdout ++ ['\n']) ++ stderr

/-- The line reporting a nonzero exit code, with its newline
(contests.py line 177). -/
def exitCodeLine (ret : Int) : List Char :=
  "Command finished with exit code ".toList ++ (toString ret).toList ++ ['\n']

/-- Per-case formatting of __run_tests (contests.py lines 174 to 177): the
run output, a newline appended when the output is empty or does not end in
one, then the exit code line when the exit code is nonzero. -/
def formatBlock (cout : List Char) (ret : Int) : List Char :=
  let c := if cout = [] ∨ cout.getLast? ≠ some '\n' then cout ++ ['\n'] else cout
  if ret ≠ 0 then c ++ exitCodeLine ret else c

/-- Restatement of the per-case formatting as the spec words it, for
comparison with formatBlock: normalize by appending one newline iff the
output is empty or does not end in a newline, then append the line naming
the exit code followed by a newline iff the exit code is nonzero. -/
def specFormatBlock (cout : List Char) (ret : Int) : List Char :=
  let c := if cout = [] ∨ ¬ List.isSuffixOf ['\n'] cout then cout ++ ['\n'] else cout
  if ret ≠ 0 then
    c ++ ("Command finished with exit code ".toList ++ (toString ret).toList) ++ ['\n']
  else c

/-- The loop of __run_tests (contests.py lines 171 to 184) over the buffer
lines, second argument the stdin accumulator: the first component is the
accumulated output text, the second the list of stdin payloads passed to
the strategy, in order. A line equal to the delimiter closes the current
case: the strategy runs on the accumulated stdin, the formatted block is
appended, the delimiter line and a newline follow unless this line is the
last one, and the accumulator restarts empty. Any other line is appended
to the accumulator with a newline. -/
def runTestsLoop (run : List Char → List Char × Int) :
    List (List Char) → List Char → List Char × List (List Char)
  | [], _ => ([], [])
  | line :: rest, stdin =>
    if line = SPLITTER then
      let r := run stdin
      let next := runTestsLoop run rest []
      (formatBlock r.1 r.2 ++ ((if rest = [] then [] else SPLITTER ++ ['\n']) ++ next.1),
       stdin :: next.2)
    else
      runTestsLoop run rest (stdin ++ line ++ ['\n'])

/-- Output text __run_tests produces for the given input-buffer lines: the
loop runs over the lines with the delimiter appended at the end
(contests.py line 167), starting from an empty accumulator. -/
def runTests (run : List Char → List Char × Int) (lines : List (List Char)) :
    List Char :=
  (runTestsLoop run (lines ++ [SPLITTER]) []).1

/-- Stdin payloads of the program invocations __run_tests performs for the
given input-buffer lines, in order. -/
def runStdins (run : List Char → List Char × Int) (lines : List (List Char)) :
    List (List Char) :=
  (runTestsLoop run (lines ++ [SPLITTER]) []).2

/-- Oracle for subprocess execution: a command line and stdin text map to
raw stdout, raw stderr and the exit code of the child process. -/
def Exec : Type :=
  List (List Char) → List Char → List Char × List Char × Int

/-- Launcher.launch (contests.py lines 8 to 26): spawn the command, feed it
the stdin text, and return the merged output together with the exit code. -/
def launch (exec : Exec) (cmd : List (List Char)) (stdin : List Char) :
    List Char × Int :=
  let r := exec cmd stdin
  (launchMerge r.1 r.2.1, r.2.2)

/-- The bound strategy: PythonLauncher with its filename, or CppLauncher
with its filename and computed executable path (contests.py lines 37
to 64). -/
inductive LauncherK : Type
  | py (filename : List Char)
  | cpp (filename executable : List Char)

deriving instance DecidableEq for LauncherK

/-- Python str.endswith, on character lists. -/
def hasSuffix (s suffix : List Char) : Bool :=
  List.isSuffixOf suffix s

/-- Executable path computed by CppLauncher: the filename up to its last
dot (contests.py line 52). Python rfind gives -1 when no dot occurs and
the slice then drops the final character. -/
def cppExecutable (filename : List Char) : List Char :=
  if '.' ∈ filename then
    filename.take (filename.length - 1 - List.indexOf '.' filename.reverse)
  else filename.dropLast

/-- Compiler command line of CppLauncher.compile (contests.py lines 55
to 58). -/
def cppCompileCmd (filename executable : List Char) : List (List Char) :=
  [("g++".toList), ("-std=c++17".toList), ("-Wall".toList), ("-Wextra".toList),
   ("-Wshadow".toList), ("-fsanitize=undefined".toList), ("-DLOCAL".toList),
   ("-D_GLIBCXX_DEBUG".toList), ("-ggdb3".toList), filename, ("-o".toList),
   executable]

/-- ContestsPlugin.__select_launcher (contests.py lines 81 to 86): a Python
launcher for a filename ending in ".py", a C++ launcher for one ending in
".cpp", nothing otherwise. -/
def selectLauncher (filename : List Char) : Option LauncherK :=
  if hasSuffix filename (".py".toList) then some (LauncherK.py filename)
  else if hasSuffix filename (".cpp".toList) then
    some (LauncherK.cpp filename (cppExecutable filename))
  else none

/-- compile() of the bound strategy. PythonLauncher.compile returns true
and echoes nothing (contests.py lines 41, 42); CppLauncher.compile
(lines 54 to 61) launches the compiler with empty stdin, echoes the merged
output when it is nonempty, and returns whether the exit code is zero. The
second component lists the echoed messages. -/
def launcherCompile (exec : Exec) : LauncherK → Bool × List (List Char)
  | LauncherK.py _ => (true, [])
  | LauncherK.cpp f ex =>
    let r := launch exec (cppCompileCmd f ex) []
    (r.2 == 0, if r.1 = [] then [] else [r.1])

/-- run(stdin) of the bound strategy (contests.py lines 44, 45, 63, 64). -/
def launcherRun (exec : Exec) : LauncherK → List Char → List Char × Int
  | LauncherK.py f, stdin => launch exec ([("python3".toList), f]) stdin
  | LauncherK.cpp _ ex, stdin => launch exec ([ex]) stdin

/-- The state ContestsPlugin holds (contests.py lines 69 to 79), with the
text of the input and output buffers it owns as lists of lines; buffer and
window creation is tracked as flags. -/
structure PluginState : Type where
  launched : Bool
  launching : Bool
  launcher : Option LauncherK
  buffersCreated : Bool
  windowsOpened : Bool
  inputBuffer : List (List Char)
  outputBuffer : List (List Char)

deriving instance DecidableEq for PluginState

/-- State right after ContestsPlugin.__init__ (contests.py lines 69
to 79). -/
def initialState : PluginState :=
  { launched := false
    launching := false
    launcher := none
    buffersCreated := false
    windowsOpened := false
    inputBuffer := []
    outputBuffer := [] }

/-- ContestsPlugin.init (contests.py lines 138 to 151): a no-op when
already launched or launching, or when no launcher matches the active
filename; otherwise it creates the buffers and windows, binds the
launcher, and becomes launched. -/
def initCmd (st : PluginState) (activeFilename : List Char) : PluginState :=
  if st.launched || st.launching then st
  else
    match selectLauncher activeFilename with
    | none => st
    | some l =>
      { st with
        buffersCreated := true
        windowsOpened := true
        launcher := some l
        launching := false
        launched := true }

/-- ContestsPlugin.run (contests.py lines 187 to 192): when launched,
compile first; on compile failure return with nothing written; on success
write the test output, split into lines as __set_buf_text does
(line 160), to the output buffer. The second component lists the messages
echoed while compiling. When not launched nothing happens. (A launched
state with no launcher bound would raise in the code; it is never reached,
and the model leaves it unchanged.) -/
def runCmd (exec : Exec) (st : PluginState) : PluginState × List (List Char) :=
  if st.launched then
    match st.launcher with
    | some l =>
      let c := launcherCompile exec l
      if c.1 then
        ({ st with outputBuffer :=
             splitSep '\n' (runTests (launcherRun exec l) st.inputBuffer) }, c.2)
      else (st, c.2)
    | none => (st, [])
  else (st, [])

/-- ContestsPlugin.compile (contests.py lines 194 to 197): when launched,
compile and echo whatever the compiler printed; no state changes. -/
def compileCmd (exec : Exec) (st : PluginState) :
    PluginState × List (List Char) :=
  if st.launched then
    match st.launcher with
    | some l => (st, (launcherCompile exec l).2)
    | none => (st, [])
  else (st, [])

/-- Strategy that echoes its stdin back and exits with code 0. -/
def echoRun : List Char → List Char × Int := fun s => (s, 0)

/-- Strategy with fixed output and exit code 0, its output free of
delimiter lines. -/
def constRun : List Char → List Char × Int := fun _ => ("hi\n".toList, 0)

/-- Strategy whose output is a line equal to the delimiter. -/
def delimRun : List Char → List Char × Int := fun _ => ("→ ###\n".toList, 0)

/-- Oracle on which every child process writes nothing and exits with
code 1, so every compile fails silently. -/
def failExec : Exec := fun _ _ => ([], [], 1)

/-- A launched session bound to a C++ launcher, for concrete instances. -/
def readyState : PluginState :=
  { initialState with
    launched := true
    launcher := some (LauncherK.cpp (("a.cpp").toList) (("a").toList)) }

/-- Number of lines equal to the delimiter in a list of lines; measures
how many delimiter lines an input buffer, or a produced output split back
into lines, holds. -/
def countSplitter (ls : List (List Char)) : Nat :=
  ls.countP (fun l => decide (l = SPLITTER))

/-! Helper lemmas about splitSep. -/

/-- splitSep never returns an empty list of pieces. -/
theorem splitSep_ne_nil {α : Type} [DecidableEq α] (sep : α) (l : List α) :
    splitSep sep l ≠ [] := by
  cases l with
  | nil => simp [splitSep]
  | cons x xs =>
    unfold splitSep
    split
    · simp
    · split <;> simp

/-- Unfolding equation of splitSep at a cons cell. -/
theorem splitSep_cons {α : Type} [DecidableEq α] (sep x : α) (xs : List α) :
    splitSep sep (x :: xs)
      = if x = sep then [] :: splitSep sep xs
        else
          match splitSep sep xs with
          | [] => [[x]]
          | p :: ps => (x :: p) :: ps := rfl

/-- Splitting around an explicit separator occurrence splits the two sides
independently. -/
theorem splitSep_append_cons {α : Type} [DecidableEq α] (sep : α)
    (a b : List α) :
    splitSep sep (a ++ sep :: b) = splitSep sep a ++ splitSep sep b := by
  induction a with
  | nil => simp [splitSep]
  | cons x xs ih =>
    by_cases h : x = sep
    · subst h
      simp only [List.cons_append]
      rw [splitSep_cons, splitSep_cons, if_pos rfl, if_pos rfl, ih]
      simp
    · simp only [List.cons_append]
      rw [splitSep_cons, splitSep_cons, if_neg h, if_neg h, ih]
      cases hs : splitSep sep xs with
      | nil => exact absurd hs (splitSep_ne_nil sep xs)
      | cons p ps => simp

/-- A trailing separator contributes one trailing empty piece. -/
theorem splitSep_concat_sep {α : Type} [DecidableEq α] (sep : α) (a : List α) :
    splitSep sep (a ++ [sep]) = splitSep sep a ++ [[]] := by
  have h := splitSep_append_cons sep a []
  simpa [splitSep] using h

/-- Input free of the separator stays in one piece. -/
theorem splitSep_eq_of_not_mem {α : Type} [DecidableEq α] (sep : α)
    (l : List α) (h : sep ∉ l) : splitSep sep l = [l] := by
  induction l with
  | nil => simp [splitSep]
  | cons x xs ih =>
    have hx : ¬ x = sep := fun he => h (by rw [he]; exact List.mem_cons_self _ _)
    have hxs : sep ∉ xs := fun he => h (List.mem_cons_of_mem _ he)
    unfold splitSep
    rw [if_neg hx, ih hxs]

/-- The number of pieces is the separator count plus one. -/
theorem splitSep_length {α : Type} [DecidableEq α] (sep : α) (l : List α) :
    (splitSep sep l).length = l.countP (fun x => decide (x = sep)) + 1 := by
  induction l with
  | nil => simp [splitSep]
  | cons x xs ih =>
    rw [splitSep_cons]
    by_cases h : x = sep
    · subst h
      rw [if_pos rfl]
      simp [List.countP_cons, ih]
    · rw [if_neg h]
      cases hs : splitSep sep xs with
      | nil => exact absurd hs (splitSep_ne_nil sep xs)
      | cons p ps =>
        have hx := ih
        rw [hs] at hx
        simp only [List.length_cons] at hx
        simp [List.countP_cons, h, ← hx]

/-- A singleton list is a suffix exactly when it is the final element. -/
theorem isSuffixOf_singleton_iff (a : Char) (l : List Char) :
    List.isSuffixOf [a] l = true ↔ l.getLast? = some a := by
  unfold List.isSuffixOf
  rw [List.isPrefixOf_iff_prefix, ← List.head?_reverse]
  show ([a] <+: l.reverse) ↔ _
  cases l.reverse with
  | nil => simp
  | cons b bs => simp [List.cons_prefix_cons, eq_comm]

/-- Claim C1: for every invocation of Launcher.launch, the merged output is
stderr verbatim when stdout is empty, stdout verbatim when stderr is empty,
and otherwise stdout with exactly one newline appended iff stdout does not
already end in a newline, followed by stderr; no forced trailing newline is
added in any case. -/
theorem launch_merge_rule (stdout stderr : List Char) :
    launchMerge stdout stderr = specMergedOutput stdout stderr := by
  unfold launchMerge specMergedOutput
  by_cases h1 : stdout = []
  · simp [h1]
  · simp only [h1, if_false]
    by_cases h2 : stderr = []
    · simp [h2]
    · simp only [h2, if_false]
      by_cases h3 : stdout.getLast? = some '\n'
      · have h4 : List.isSuffixOf ['\n'] stdout = true :=
          (isSuffixOf_singleton_iff '\n' stdout).mpr h3
        simp [h3, h4]
      · have h4 : ¬ List.isSuffixOf ['\n'] stdout = true := fun hh =>
          h3 ((isSuffixOf_singleton_iff '\n' stdout).mp hh)
        simp [h3, h4]

/-- Claim C4: the formatted block is the run output with one newline
appended iff the output is empty or does not end in a newline, followed,
iff the exit code is nonzero, by the line naming the exit code and a
newline; output "ok" with exit code 2 gives the stated block. -/
theorem format_block_rule :
    (∀ (cout : List Char) (ret : Int),
      formatBlock cout ret = specFormatBlock cout ret)
    ∧ formatBlock ("ok".toList) 2
        = ("ok\nCommand finished with exit code 2\n").toList := by
  constructor
  · intro cout ret
    unfold formatBlock specFormatBlock exitCodeLine
    by_cases h3 : cout.getLast? = some '\n'
    · have h4 : List.isSuffixOf ['\n'] cout = true :=
        (isSuffixOf_singleton_iff '\n' cout).mpr h3
      have h5 : cout ≠ [] := by rintro rfl; simp at h3
      simp [h3, h4, h5, List.append_assoc]
    · have h4 : ¬ List.isSuffixOf ['\n'] cout = true := fun hh =>
        h3 ((isSuffixOf_singleton_iff '\n' cout).mp hh)
      simp [h3, h4, List.append_assoc]
  · decide

/-- Claim C8: CppLauncher.compile returns true exactly when the compiler
child process exits with code 0, and the merged compiler output is echoed
to the user exactly when it is nonempty, on success and on failure alike. -/
theorem cpp_compile_result_and_diagnostics (exec : Exec) (f ex : List Char) :
    ((launcherCompile exec (LauncherK.cpp f ex)).1 = true
      ↔ (launch exec (cppCompileCmd f ex) []).2 = 0)
    ∧ (launcherCompile exec (LauncherK.cpp f ex)).2
        = (if (launch exec (cppCompileCmd f ex) []).1 = [] then []
           else [(launch exec (cppCompileCmd f ex) []).1]) := by
  constructor
  · show ((launch exec (cppCompileCmd f ex) []).2 == 0) = true ↔ _
    exact beq_iff_eq
  · rfl

/-- Claim C6: run and compile change nothing and echo nothing when the
session is not launched; when launched with a bound strategy whose compile
fails, run leaves the whole state, the output buffer included, unchanged
and still launched, so another attempt is possible. -/
theorem run_compile_gating (exec : Exec) (st : PluginState) :
    (st.launched = false →
      runCmd exec st = (st, []) ∧ compileCmd exec st = (st, []))
    ∧ (∀ l : LauncherK, st.launched = true → st.launcher = some l →
        (launcherCompile exec l).1 = false → (runCmd exec st).1 = st) := by
  constructor
  · intro h
    constructor <;> simp [runCmd, compileCmd, h]
  · intro l h1 h2 h3
    simp [runCmd, h1, h2, h3]

/-- Concrete instance of claim C6: a fresh session ignores run, and a
launched session whose compile fails is left unchanged by run. -/
theorem run_compile_gating_witness :
    runCmd failExec initialState = (initialState, [])
    ∧ (runCmd failExec readyState).1 = readyState :=
  ⟨((run_compile_gating failExec initialState).1 rfl).1,
   (run_compile_gating failExec readyState).2
     (LauncherK.cpp (("a.cpp").toList) (("a").toList)) rfl rfl rfl⟩

/-- Claim C7: init with an active filename ending neither in ".py" nor in
".cpp" leaves an unlaunched session completely unchanged: still not
launched, not launching, no launcher bound, no buffers or windows
created. -/
theorem init_unsupported_noop (st : PluginState) (f : List Char)
    (h1 : st.launched = false) (h2 : st.launching = false)
    (h3 : hasSuffix f (".py".toList) = false)
    (h4 : hasSuffix f (".cpp".toList) = false) :
    initCmd st f = st := by
  have h3a : hasSuffix f (['.', 'p', 'y']) = false := h3
  have h4a : hasSuffix f (['.', 'c', 'p', 'p']) = false := h4
  simp [initCmd, h1, h2, selectLauncher, h3a, h4a]

/-- Concrete instance of claim C7: init on "a.txt" from the fresh state is
the identity. -/
theorem init_unsupported_noop_witness :
    initCmd initialState ("a.txt".toList) = initialState :=
  init_unsupported_noop initialState ("a.txt".toList) rfl rfl
    (by decide) (by decide)

/-- Unfolding equation of the __run_tests loop at a cons cell. -/
theorem runTestsLoop_cons (run : List Char → List Char × Int)
    (line : List Char) (rest : List (List Char)) (stdin : List Char) :
    runTestsLoop run (line :: rest) stdin
      = if line = SPLITTER then
          (formatBlock (run stdin).1 (run stdin).2
             ++ ((if rest = [] then [] else SPLITTER ++ ['\n'])
                  ++ (runTestsLoop run rest []).1),
           stdin :: (runTestsLoop run rest []).2)
        else runTestsLoop run rest (stdin ++ line ++ ['\n']) := rfl

/-- The stdin payloads the loop collects are the delimiter blocks of its
argument joined with newlines, the still-open accumulator glued onto the
first one; the block after the final delimiter never runs and is
dropped. -/
theorem runTestsLoop_snd (run : List Char → List Char × Int) :
    ∀ (l : List (List Char)) (acc : List Char),
      (runTestsLoop run l acc).2
        = match (splitSep SPLITTER l).dropLast with
          | [] => []
          | b :: bs => (acc ++ joinNl b) :: bs.map joinNl := by
  intro l
  induction l with
  | nil =>
    intro acc
    simp [runTestsLoop, splitSep]
  | cons line rest ih =>
    intro acc
    by_cases h : line = SPLITTER
    · subst h
      rw [runTestsLoop_cons, if_pos rfl]
      dsimp only
      rw [ih [], splitSep_cons, if_pos rfl]
      cases hs : splitSep SPLITTER rest with
      | nil => exact absurd hs (splitSep_ne_nil _ _)
      | cons p ps =>
        cases ps with
        | nil => simp [joinNl]
        | cons q qs => simp [joinNl]
    · rw [runTestsLoop_cons, if_neg h, ih (acc ++ line ++ ['\n'])]
      rw [splitSep_cons, if_neg h]
      cases hs : splitSep SPLITTER rest with
      | nil => exact absurd hs (splitSep_ne_nil _ _)
      | cons p ps =>
        cases ps with
        | nil => simp
        | cons q qs => simp [joinNl, List.append_assoc]

/-- The stdin payloads of a whole test run are exactly the delimiter
blocks of the input buffer, each block joined into text with a newline
after every line. -/
theorem runStdins_eq (run : List Char → List Char × Int)
    (lines : List (List Char)) :
    runStdins run lines = (splitSep SPLITTER lines).map joinNl := by
  unfold runStdins
  rw [runTestsLoop_snd run (lines ++ [SPLITTER]) []]
  rw [splitSep_concat_sep, List.dropLast_concat]
  cases hs : splitSep SPLITTER lines with
  | nil => exact absurd hs (splitSep_ne_nil _ _)
  | cons b bs => simp

/-- Claim C2 counterexample: with exactly one delimiter line standing as
the very last line of the input, two program invocations are performed,
not one; the trailing empty case runs with empty stdin. -/
theorem delimiter_last_line_counterexample :
    (runStdins echoRun (["a".toList, SPLITTER])).length = 2
    ∧ (runStdins echoRun (["a".toList, SPLITTER])).length ≠ 1
    ∧ runStdins echoRun (["a".toList, SPLITTER]) = [("a\n".toList), []] := by
  decide

/-- Claim C2 amended: for every strategy and input, the number of program
invocations is the number of delimiter lines plus one, also when a
delimiter line is the very last line of the input; the final case is then
the trailing empty one, run with empty stdin. -/
theorem invocation_count (run : List Char → List Char × Int)
    (lines : List (List Char)) :
    (runStdins run lines).length = countSplitter lines + 1
    ∧ (lines.getLast? = some SPLITTER
        → (runStdins run lines).getLast? = some []) := by
  constructor
  · rw [runStdins_eq, List.length_map, splitSep_length, countSplitter]
  · intro h
    have hne : lines ≠ [] := by rintro rfl; simp at h
    have hd : lines.dropLast ++ [SPLITTER] = lines := by
      have h2 := List.dropLast_append_getLast hne
      rw [List.getLast?_eq_getLast lines hne, Option.some_inj] at h
      rw [h] at h2
      exact h2
    rw [runStdins_eq, ← hd, splitSep_concat_sep]
    simp [joinNl]

/-- Claim C9: an input buffer with no line equal to the delimiter yields
exactly one program invocation, whose stdin is the whole input, every
buffer line followed by a newline. -/
theorem no_delimiter_single_case (run : List Char → List Char × Int)
    (lines : List (List Char)) (h : SPLITTER ∉ lines) :
    runStdins run lines = [joinNl lines]
    ∧ (runStdins run lines).length = 1 := by
  have he : runStdins run lines = [joinNl lines] := by
    rw [runStdins_eq, splitSep_eq_of_not_mem _ _ h]
    simp
  exact ⟨he, by rw [he]; rfl⟩

/-- Concrete instance of claim C9: a two-line buffer without delimiters is
fed whole, as one invocation. -/
theorem no_delimiter_single_case_witness :
    runStdins echoRun (["1 2".toList, "3 4".toList])
      = [joinNl (["1 2".toList, "3 4".toList])]
    ∧ (runStdins echoRun (["1 2".toList, "3 4".toList])).length = 1 :=
  no_delimiter_single_case echoRun (["1 2".toList, "3 4".toList]) (by decide)

/-- Claim C10: the stdin of the i-th invocation is exactly the lines of
the i-th delimiter-separated block, each followed by a newline — the
accumulator is reset to empty after every delimiter — so two inputs whose
i-th blocks agree feed identical stdin to their i-th invocations, whatever
every other block holds. -/
theorem blockwise_stdin :
    (∀ (run : List Char → List Char × Int) (lines : List (List Char)),
      runStdins run lines = (splitSep SPLITTER lines).map joinNl)
    ∧ (∀ (r1 r2 : List Char → List Char × Int)
        (l1 l2 : List (List Char)) (i : Nat),
        (splitSep SPLITTER l1)[i]? = (splitSep SPLITTER l2)[i]? →
        (runStdins r1 l1)[i]? = (runStdins r2 l2)[i]?) := by
  refine ⟨runStdins_eq, ?_⟩
  intro r1 r2 l1 l2 i h
  rw [runStdins_eq, runStdins_eq, List.getElem?_map, List.getElem?_map, h]

/-- Concrete instance of claim C10: two inputs sharing their first block
feed the same stdin to their first invocations under different
strategies. -/
theorem blockwise_stdin_witness :
    (runStdins echoRun (["a".toList, SPLITTER, "x".toList]))[0]?
      = (runStdins constRun (["a".toList, SPLITTER, "y".toList]))[0]? :=
  blockwise_stdin.2 echoRun constRun (["a".toList, SPLITTER, "x".toList])
    (["a".toList, SPLITTER, "y".toList]) 0 (by decide)

/-- Claim C3 counterexample: with input buffer text "1 2\n→ ###\n3 4" and
a strategy echoing its stdin with exit code 0, the produced output text is
not the text the claim states (no blank line appears after the first
case). -/
theorem scenario_one_counterexample :
    runTests echoRun (splitSep '\n' ("1 2\n→ ###\n3 4".toList))
      ≠ ("1 2\n\n→ ###\n3 4\n").toList := by
  decide

/-- Claim C3 amended: with input buffer text "1 2\n→ ###\n3 4" and a
strategy echoing its stdin with exit code 0, the produced output text is
exactly "1 2\n→ ###\n3 4\n". -/
theorem scenario_one_output :
    runTests echoRun (splitSep '\n' ("1 2\n→ ###\n3 4".toList))
      = ("1 2\n→ ###\n3 4\n").toList := by
  decide

/-- Every character Nat.digitChar can yield differs from the newline. -/
theorem digitChar_ne_newline (n : Nat) : Nat.digitChar n ≠ '\n' := by
  by_cases h : n < 16
  · interval_cases n <;> decide
  · unfold Nat.digitChar
    repeat rw [if_neg (by omega)]
    decide

/-- Digits accumulated by Nat.toDigitsCore hold no newline when the
accumulator holds none. -/
theorem toDigitsCore_ne_newline (b : Nat) :
    ∀ (fuel n : Nat) (ds : List Char), (∀ c ∈ ds, c ≠ '\n') →
      ∀ c ∈ Nat.toDigitsCore b fuel n ds, c ≠ '\n' := by
  intro fuel
  induction fuel with
  | zero =>
    intro n ds hds c hc
    rw [Nat.toDigitsCore] at hc
    exact hds c hc
  | succ fuel ih =>
    intro n ds hds c hc
    rw [Nat.toDigitsCore] at hc
    have hd : ∀ x ∈ (n % b).digitChar :: ds, x ≠ '\n' := by
      intro x hx
      rcases List.mem_cons.mp hx with hx | hx
      · rw [hx]; exact digitChar_ne_newline _
      · exact hds x hx
    by_cases h : n / b = 0
    · rw [if_pos h] at hc
      exact hd c hc
    · rw [if_neg h] at hc
      exact ih (n / b) _ hd c hc

/-- The decimal rendering of an integer holds no newline character. -/
theorem toString_int_ne_newline (k : Int) : '\n' ∉ (toString k).toList := by
  intro hmem
  cases k with
  | ofNat m =>
    have he : (toString (Int.ofNat m)).toList = Nat.toDigits 10 m := rfl
    rw [he] at hmem
    exact toDigitsCore_ne_newline 10 (m + 1) m [] (by simp) '\n' hmem rfl
  | negSucc m =>
    have he : (toString (Int.negSucc m)).toList
        = '-' :: Nat.toDigits 10 (m + 1) := rfl
    rw [he] at hmem
    rcases List.mem_cons.mp hmem with h | h
    · exact absurd h (by decide)
    · exact toDigitsCore_ne_newline 10 (m + 2) (m + 1) [] (by simp) '\n' h rfl

/-- Text ending in a newline contributes its delimiter lines independently
of what follows it. -/
theorem countSplitter_lines_append (a b : List Char)
    (h : a.getLast? = some '\n') :
    countSplitter (splitSep '\n' (a ++ b))
      = countSplitter (splitSep '\n' a) + countSplitter (splitSep '\n' b) := by
  have hne : a ≠ [] := by rintro rfl; simp at h
  have hd : a.dropLast ++ ['\n'] = a := by
    have h2 := List.dropLast_append_getLast hne
    rw [List.getLast?_eq_getLast a hne, Option.some_inj] at h
    rw [h] at h2
    exact h2
  rw [← hd, List.append_assoc, List.singleton_append, splitSep_append_cons,
      splitSep_concat_sep]
  unfold countSplitter
  rw [List.countP_append, List.countP_append]
  simp [SPLITTER]

/-- The exit code line never reads as a delimiter line. -/
theorem exitCodeLine_no_delimiter (ret : Int) :
    countSplitter (splitSep '\n' (exitCodeLine ret)) = 0 := by
  unfold exitCodeLine
  rw [splitSep_concat_sep]
  have hn : '\n' ∉ ("Command finished with exit code ".toList
      ++ (toString ret).toList) := by
    intro hm
    rcases List.mem_append.mp hm with hm | hm
    · revert hm; decide
    · exact toString_int_ne_newline ret hm
  rw [splitSep_eq_of_not_mem _ _ hn]
  have hne2 : ("Command finished with exit code ".toList
      ++ (toString ret).toList) ≠ SPLITTER := by
    intro he
    have hp : "Command finished with exit code ".toList
        = 'C' :: "ommand finished with exit code ".toList := rfl
    have hsp : SPLITTER = '→' :: (" ###".toList) := rfl
    rw [hp, List.cons_append, hsp] at he
    injection he with he1 he2
    exact absurd he1 (by decide)
  unfold countSplitter
  simp [hne2, SPLITTER]

/-- A formatted block always ends in a newline. -/
theorem formatBlock_getLast (cout : List Char) (ret : Int) :
    (formatBlock cout ret).getLast? = some '\n' := by
  unfold formatBlock
  dsimp only
  have hex : (exitCodeLine ret).getLast? = some '\n' := by
    unfold exitCodeLine
    rw [List.getLast?_concat]
  by_cases hc : cout = [] ∨ cout.getLast? ≠ some '\n'
  · rw [if_pos hc]
    by_cases hr : ret ≠ 0
    · rw [if_pos hr, List.getLast?_append, hex]
      rfl
    · rw [if_neg hr]
      exact List.getLast?_concat _
  · rw [if_neg hc]
    push_neg at hc
    by_cases hr : ret ≠ 0
    · rw [if_pos hr, List.getLast?_append, hex]
      rfl
    · rw [if_neg hr]
      exact hc.2

/-- A formatted block of a run output free of delimiter lines holds no
delimiter line itself. -/
theorem formatBlock_no_delimiter_lines (cout : List Char) (ret : Int)
    (h : SPLITTER ∉ splitSep '\n' cout) :
    countSplitter (splitSep '\n' (formatBlock cout ret)) = 0 := by
  have hc0 : countSplitter (splitSep '\n' cout) = 0 := by
    unfold countSplitter
    apply List.countP_eq_zero.mpr
    intro x hx
    simp only [decide_eq_true_eq]
    rintro rfl
    exact h hx
  unfold formatBlock
  dsimp only
  by_cases hc : cout = [] ∨ cout.getLast? ≠ some '\n'
  · rw [if_pos hc]
    have hnc : countSplitter (splitSep '\n' (cout ++ ['\n'])) = 0 := by
      rw [splitSep_concat_sep]
      unfold countSplitter at hc0 ⊢
      rw [List.countP_append, hc0]
      simp [SPLITTER]
    by_cases hr : ret ≠ 0
    · rw [if_pos hr]
      rw [countSplitter_lines_append _ _ (List.getLast?_concat _), hnc,
          exitCodeLine_no_delimiter]
    · rw [if_neg hr]
      exact hnc
  · rw [if_neg hc]
    push_neg at hc
    by_cases hr : ret ≠ 0
    · rw [if_pos hr]
      rw [countSplitter_lines_append _ _ hc.2, hc0, exitCodeLine_no_delimiter]
    · rw [if_neg hr]
      exact hc0

/-- Count of delimiter lines in the loop output: when each run output is
free of delimiter lines, the output holds one delimiter line per delimiter
of the remaining input, except the one closing the whole input when it
stands last. -/
theorem runTestsLoop_fst_count (run : List Char → List Char × Int)
    (hclean : ∀ s, SPLITTER ∉ splitSep '\n' (run s).1) :
    ∀ (l : List (List Char)) (acc : List Char),
      countSplitter (splitSep '\n' (runTestsLoop run l acc).1)
        + (if l.getLast? = some SPLITTER then 1 else 0)
        = countSplitter l := by
  have hone : List.countP (fun l => decide (l = SPLITTER)) ([SPLITTER]) = 1 := by
    simp
  intro l
  induction l with
  | nil =>
    intro acc
    simp [runTestsLoop, splitSep, countSplitter]
    decide
  | cons line rest ih =>
    intro acc
    by_cases h : line = SPLITTER
    · subst h
      rw [runTestsLoop_cons, if_pos rfl]
      dsimp only
      cases rest with
      | nil =>
        rw [show runTestsLoop run [] [] = ([], []) from rfl, if_pos rfl]
        dsimp only
        rw [List.append_nil, List.append_nil]
        rw [formatBlock_no_delimiter_lines _ _ (hclean acc)]
        simp [countSplitter]
      | cons r2 rs =>
        have hne : (r2 :: rs : List (List Char)) ≠ [] := by simp
        rw [if_neg hne]
        rw [countSplitter_lines_append _ _ (formatBlock_getLast _ _)]
        rw [formatBlock_no_delimiter_lines _ _ (hclean acc)]
        rw [List.append_assoc, List.singleton_append, splitSep_append_cons,
            splitSep_eq_of_not_mem '\n' SPLITTER (by decide)]
        have h1 := ih []
        rw [List.getLast?_cons_cons]
        unfold countSplitter at h1 ⊢
        rw [List.countP_append, hone]
        have hcons : List.countP (fun l => decide (l = SPLITTER))
            (SPLITTER :: r2 :: rs)
            = List.countP (fun l => decide (l = SPLITTER)) (r2 :: rs) + 1 := by
          simp [List.countP_cons]
        rw [hcons]
        by_cases hlast : (r2 :: rs).getLast? = some SPLITTER
        · rw [if_pos hlast] at h1
          rw [if_pos hlast]
          omega
        · rw [if_neg hlast] at h1
          rw [if_neg hlast]
          omega
    · rw [runTestsLoop_cons, if_neg h]
      cases rest with
      | nil =>
        rw [show runTestsLoop run [] (acc ++ line ++ ['\n']) = ([], [])
              from rfl]
        dsimp only
        simp [splitSep, countSplitter, h]
        decide
      | cons r2 rs =>
        have h1 := ih (acc ++ line ++ ['\n'])
        rw [List.getLast?_cons_cons]
        unfold countSplitter at h1 ⊢
        have hb : (decide (line = SPLITTER) : Bool) = false := by simp [h]
        simp only [List.countP_cons, hb] at h1 ⊢
        have hz : (if (false = true) then (1 : Nat) else 0) = 0 := rfl
        rw [hz]
        omega

/-- When each run output is free of delimiter lines, the produced output
text holds exactly as many delimiter lines as the input buffer. -/
theorem runTests_lines_count (run : List Char → List Char × Int)
    (hclean : ∀ s, SPLITTER ∉ splitSep '\n' (run s).1)
    (lines : List (List Char)) :
    countSplitter (splitSep '\n' (runTests run lines)) = countSplitter lines := by
  have h := runTestsLoop_fst_count run hclean (lines ++ [SPLITTER]) []
  rw [List.getLast?_concat, if_pos rfl] at h
  unfold countSplitter at h ⊢
  rw [List.countP_append] at h
  have hone : List.countP (fun l => decide (l = SPLITTER)) ([SPLITTER]) = 1 := by
    simp
  rw [hone] at h
  unfold runTests
  omega

/-- Claim C5 counterexample: a strategy whose output is a line equal to
the delimiter makes the re-split output hold more cases than the input was
split into. -/
theorem resplit_count_counterexample :
    (runStdins delimRun (splitSep '\n' (runTests delimRun ([("x".toList)])))).length
      ≠ (runStdins delimRun ([("x".toList)])).length
    ∧ (runStdins delimRun (splitSep '\n' (runTests delimRun ([("x".toList)])))).length = 2
    ∧ (runStdins delimRun ([("x".toList)])).length = 1 := by
  decide

/-- Claim C5 amended: when no run output contains a line equal to the
delimiter, splitting the produced output text on the delimiter line yields
exactly as many cases as the input was split into — one delimiter line and
a newline stand between consecutive case blocks and none after the last —
while a run output holding delimiter lines can break the equality. -/
theorem resplit_preserves_case_count
    (run run2 : List Char → List Char × Int) (lines : List (List Char))
    (hclean : ∀ s, SPLITTER ∉ splitSep '\n' (run s).1) :
    (runStdins run2 (splitSep '\n' (runTests run lines))).length
      = (runStdins run lines).length := by
  rw [runStdins_eq, runStdins_eq, List.length_map, List.length_map,
      splitSep_length, splitSep_length]
  have hc := runTests_lines_count run hclean lines
  unfold countSplitter at hc
  rw [hc]

/-- Concrete instance of claim C5: a strategy with fixed delimiter-free
output preserves the number of cases across a run. -/
theorem resplit_preserves_case_count_witness :
    (runStdins constRun (splitSep '\n' (runTests constRun ([("x".toList)])))).length
      = (runStdins constRun ([("x".toList)])).length :=
  resplit_preserves_case_count constRun constRun ([("x".toList)])
    (fun _ => by
      show SPLITTER ∉ splitSep '\n' ("hi\n".toList)
      decide)
